import Mathlib

/-!
Verification of the tesseroid forward-modelling module
(`harmonica/forward/tesseroid.py`).

The module is shallowly embedded over an arbitrary `LinearOrderedField`
(instantiated at `ℚ` for concrete evaluations), which models the exact
real arithmetic that the floating-point code approximates.  Transcendental
helpers that the module imports or merely calls (the trigonometric
functions, the spherical distance helper `distance_spherical` from
`forward/utils.py`, the point-mass kernels from `forward/point_mass.py`,
and the SciPy bounded scalar minimizer) are kept as explicit function
parameters: the algorithms under verification only pass their values
around, so every claim is proved uniformly in those parameters.

Stateful constructs are embedded functionally: the pre-allocated stack
and output arrays of the adaptive discretization become lists together
with explicit capacity checks that mirror the bound checks of the code,
and the `while` loops become fuel-indexed recursive functions (running
out of fuel is a distinguished outcome, separate from normal termination
and from the overflow errors raised by the code).
-/

/-- Capacity of the adaptive-discretization stack (`STACK_SIZE = 100`). -/
def STACK_SIZE : ℕ := 100

/-- Capacity of the small-tesseroid output buffer
(`MAX_DISCRETIZATIONS = 100000`). -/
def MAX_DISCRETIZATIONS : ℕ := 100000

/-- One tesseroid: boundaries `w, e, s, n, bottom, top`, exactly the six
scalars the code stores per row of the tesseroid array. -/
structure Tesseroid (α : Type) where
  w : α
  e : α
  s : α
  n : α
  bottom : α
  top : α
deriving DecidableEq, Repr

/-- Error raised by `_adaptive_discretization`: either the tesseroid stack
or the small-tesseroid output buffer would overflow. -/
inductive AdaptError where
  | stackOverflow
  | maxDiscretizations
deriving DecidableEq, Repr

/-- Outcome of running the adaptive-discretization loop: normal completion
with the list of produced small tesseroids, an overflow error, or fuel
exhaustion (an artifact of the fuel-indexed embedding of the `while` loop,
never an outcome of the code itself). -/
inductive AdaptResult (α : Type) where
  | ok (leaves : List (Tesseroid α))
  | err (e : AdaptError)
  | fuelOut
deriving DecidableEq, Repr

/-- Embedding of `_split_tesseroid` (tesseroid.py lines 636-658): the list of
children written onto the stack by the three nested loops over
`i < n_lon`, `j < n_lat`, `k < n_rad`, in the order the code writes them.
Child `(i, j, k)` spans `[w + d_lon*i, w + d_lon*(i+1)]` longitudinally,
and analogously for latitude and radius. -/
def _split_tesseroid {α : Type} [LinearOrderedField α]
    (tesseroid : Tesseroid α) (n_lon n_lat n_rad : ℕ) : List (Tesseroid α) :=
  let d_lon := (tesseroid.e - tesseroid.w) / (n_lon : α)
  let d_lat := (tesseroid.n - tesseroid.s) / (n_lat : α)
  let d_rad := (tesseroid.top - tesseroid.bottom) / (n_rad : α)
  (List.range n_lon).flatMap fun (i : ℕ) =>
    (List.range n_lat).flatMap fun (j : ℕ) =>
      (List.range n_rad).map fun (k : ℕ) =>
        { w := tesseroid.w + d_lon * (i : α)
          e := tesseroid.w + d_lon * ((i : α) + 1)
          s := tesseroid.s + d_lat * (j : α)
          n := tesseroid.s + d_lat * ((j : α) + 1)
          bottom := tesseroid.bottom + d_rad * (k : α)
          top := tesseroid.bottom + d_rad * ((k : α) + 1) }

/-- One iteration of the `while` loop of `_adaptive_discretization`
(tesseroid.py lines 599-632), acting on the popped tesseroid `tesseroid`,
the remaining stack `rest` (head = top of the LIFO stack) and the output
buffer `out`.  The geometric helpers `_tesseroid_dimensions` and
`_distance_tesseroid_point` are abstracted as the parameters `dims` and
`dist` (they are built from `arccos`/`cos`/`sin` and the external
`distance_spherical` helper, and the loop only consumes their values).
Children are pushed in code order, so the last child written is the new
top of the stack (head of the list). -/
def adaptiveStep {α : Type} [LinearOrderedField α]
    (dims : Tesseroid α → α × α × α) (dist : α × α × α → Tesseroid α → α)
    (coordinates : α × α × α) (distance_size_ratio : α)
    (radial_discretization : Bool) (stack_size max_discretizations : ℕ)
    (tesseroid : Tesseroid α) (rest out : List (Tesseroid α)) :
    Except AdaptError (List (Tesseroid α) × List (Tesseroid α)) :=
  let l_lon := (dims tesseroid).1
  let l_lat := (dims tesseroid).2.1
  let l_rad := (dims tesseroid).2.2
  let distance := dist coordinates tesseroid
  let n_lon : ℕ := if distance / l_lon < distance_size_ratio then 2 else 1
  let n_lat : ℕ := if distance / l_lat < distance_size_ratio then 2 else 1
  let n_rad : ℕ :=
    if distance / l_rad < distance_size_ratio ∧ radial_discretization = true then 2 else 1
  if n_lon * n_lat * n_rad > 1 then
    if rest.length + n_lon * n_lat * n_rad > stack_size then
      .error .stackOverflow
    else
      .ok ((_split_tesseroid tesseroid n_lon n_lat n_rad).reverse ++ rest, out)
  else
    if out.length + 1 > max_discretizations then
      .error .maxDiscretizations
    else
      .ok (rest, out ++ [tesseroid])

/-- Fuel-indexed embedding of the `while` loop of `_adaptive_discretization`:
run `adaptiveStep` until the stack empties, an overflow error is raised, or
the fuel runs out. -/
def adaptiveLoop {α : Type} [LinearOrderedField α]
    (dims : Tesseroid α → α × α × α) (dist : α × α × α → Tesseroid α → α)
    (coordinates : α × α × α) (distance_size_ratio : α)
    (radial_discretization : Bool) (stack_size max_discretizations : ℕ) :
    ℕ → List (Tesseroid α) → List (Tesseroid α) → AdaptResult α
  | _, [], out => .ok out
  | 0, _ :: _, _ => .fuelOut
  | fuel + 1, tesseroid :: rest, out =>
    match adaptiveStep dims dist coordinates distance_size_ratio
        radial_discretization stack_size max_discretizations tesseroid rest out with
    | .error e => .err e
    | .ok (stack', out') =>
      adaptiveLoop dims dist coordinates distance_size_ratio
        radial_discretization stack_size max_discretizations fuel stack' out'

/-- Embedding of `_adaptive_discretization` (tesseroid.py lines 547-633):
start from a stack holding only the input tesseroid and an empty output
buffer, with the capacities `STACK_SIZE` and `MAX_DISCRETIZATIONS` of the
arrays allocated by `jit_tesseroid_gravity`. -/
def _adaptive_discretization {α : Type} [LinearOrderedField α]
    (dims : Tesseroid α → α × α × α) (dist : α × α × α → Tesseroid α → α)
    (coordinates : α × α × α) (tesseroid : Tesseroid α)
    (distance_size_ratio : α) (radial_discretization : Bool) (fuel : ℕ) :
    AdaptResult α :=
  adaptiveLoop dims dist coordinates distance_size_ratio radial_discretization
    STACK_SIZE MAX_DISCRETIZATIONS fuel [tesseroid] []

/-- Halves of one axis, following the words of the specification: an axis selected
for splitting (count 2) is divided into two equal halves, an unselected axis
(count 1) is kept whole. -/
def axisHalves {α : Type} [LinearOrderedField α] (lo hi : α) (count : ℕ) :
    List (α × α) :=
  if count = 2 then [(lo, (lo + hi) / 2), ((lo + hi) / 2, hi)] else [(lo, hi)]

/-- Children of a split as the specification describes them: the cartesian
product of per-axis halves. -/
def specChildren {α : Type} [LinearOrderedField α]
    (tesseroid : Tesseroid α) (n_lon n_lat n_rad : ℕ) : List (Tesseroid α) :=
  (axisHalves tesseroid.w tesseroid.e n_lon).flatMap fun lon =>
    (axisHalves tesseroid.s tesseroid.n n_lat).flatMap fun lat =>
      (axisHalves tesseroid.bottom tesseroid.top n_rad).map fun rad =>
        { w := lon.1, e := lon.2, s := lat.1, n := lat.2,
          bottom := rad.1, top := rad.2 }

/-- Embedding of `gauss_legendre_quadrature` (tesseroid.py lines 414-513).
The trigonometric conversions `np.radians`, `np.cos`, `np.sin` are the
abstract parameters `radians`, `cos`, `sin`; the point-mass kernel (an
external collaborator from `point_mass.py`) is the parameter `kernel`,
taking the observation point data and the point-mass data in the order the
code passes them.  Each per-axis GLQ node list is paired with its weight
list (the code walks nodes with `enumerate` and reads the weight at the
same index), and the accumulation `result += ...` of the three nested
loops (latitude outer, radius middle, longitude inner, with `cosphi_p`,
`sinphi_p` and `kappa` cached exactly where the code caches them) becomes
a triple nested sum. -/
def gauss_legendre_quadrature {α : Type} [LinearOrderedField α]
    (radians cos sin : α → α)
    (longitude cosphi sinphi radius : α) (tesseroid : Tesseroid α)
    (density : Option α) (density_func : α → α)
    (lon_glq lat_glq rad_glq : List (α × α))
    (kernel : α → α → α → α → α → α → α → α → α) : α :=
  let w := tesseroid.w
  let e := tesseroid.e
  let s := tesseroid.s
  let n := tesseroid.n
  let bottom := tesseroid.bottom
  let top := tesseroid.top
  let a_factor := 1 / 8 * radians (e - w) * radians (n - s) * (top - bottom)
  (lat_glq.map fun lat_nw =>
    let latitude_p := radians (1 / 2 * (n - s) * lat_nw.1 + 1 / 2 * (n + s))
    let cosphi_p := cos latitude_p
    let sinphi_p := sin latitude_p
    (rad_glq.map fun rad_nw =>
      let radius_p := 1 / 2 * (top - bottom) * rad_nw.1 + 1 / 2 * (top + bottom)
      let kappa := radius_p ^ 2 * cosphi_p
      (lon_glq.map fun lon_nw =>
        let longitude_p := radians (1 / 2 * (e - w) * lon_nw.1 + 1 / 2 * (e + w))
        let mass := a_factor * kappa * lon_nw.2 * lat_nw.2 * rad_nw.2
        let mass :=
          match density with
          | none => mass * density_func radius_p
          | some d => mass * d
        mass * kernel longitude cosphi sinphi radius
          longitude_p cosphi_p sinphi_p radius_p).sum).sum).sum

/-- Cartesian product of the three per-axis GLQ (node, weight) lists, used to
state the description the specification gives of the GLQ evaluator. -/
def glqTriples {α : Type} (lon_glq lat_glq rad_glq : List (α × α)) :
    List ((α × α) × (α × α) × (α × α)) :=
  lon_glq.flatMap fun lon_nw =>
    lat_glq.flatMap fun lat_nw =>
      rad_glq.map fun rad_nw => (lon_nw, lat_nw, rad_nw)

/-- Sum described by the specification for the GLQ evaluator: over the
cartesian product of one longitude node, one latitude node and one radius
node, accumulate `mass * kernel(point, point-mass location)` where each
unscaled node is rescaled by `x = 0.5*(hi-lo)*node + 0.5*(hi+lo)`,
`A = (1/8)*radians(e-w)*radians(n-s)*(top-bottom)`,
`kappa = radius_p^2 * cos(latitude_p)` and
`mass = A * kappa * w_lon * w_lat * w_rad * density(radius_p)` (the constant
density in the constant-density case). -/
def glqCartesianSum {α : Type} [LinearOrderedField α]
    (radians cos sin : α → α)
    (longitude cosphi sinphi radius : α) (tesseroid : Tesseroid α)
    (density : Option α) (density_func : α → α)
    (lon_glq lat_glq rad_glq : List (α × α))
    (kernel : α → α → α → α → α → α → α → α → α) : α :=
  ((glqTriples lon_glq lat_glq rad_glq).map fun t3 =>
    let lon_nw := t3.1
    let lat_nw := t3.2.1
    let rad_nw := t3.2.2
    let a_factor := 1 / 8 * radians (tesseroid.e - tesseroid.w)
      * radians (tesseroid.n - tesseroid.s) * (tesseroid.top - tesseroid.bottom)
    let longitude_p := radians (1 / 2 * (tesseroid.e - tesseroid.w) * lon_nw.1
      + 1 / 2 * (tesseroid.e + tesseroid.w))
    let latitude_p := radians (1 / 2 * (tesseroid.n - tesseroid.s) * lat_nw.1
      + 1 / 2 * (tesseroid.n + tesseroid.s))
    let radius_p := 1 / 2 * (tesseroid.top - tesseroid.bottom) * rad_nw.1
      + 1 / 2 * (tesseroid.top + tesseroid.bottom)
    let kappa := radius_p ^ 2 * cos latitude_p
    let mass := a_factor * kappa * lon_nw.2 * lat_nw.2 * rad_nw.2 *
      (match density with
       | none => density_func radius_p
       | some d => d)
    mass * kernel longitude cosphi sinphi radius
      longitude_p (cos latitude_p) (sin latitude_p) radius_p).sum

/-- One point mass generated during GLQ evaluation: its location (with the
latitude already converted to radians, as the code stores it), its mass,
and its kernel contribution to the running sum. -/
structure PointMassRecord (α : Type) where
  longitude_p : α
  latitude_p : α
  radius_p : α
  mass : α
  contribution : α
deriving DecidableEq, Repr

/-- Point masses generated by the optimized loop order of
`gauss_legendre_quadrature`: latitude outer, radius middle, longitude inner,
with the trigonometric values and `kappa` cached across inner loops, exactly
as in the code. -/
def glqPointMassesLoop {α : Type} [LinearOrderedField α]
    (radians cos sin : α → α)
    (longitude cosphi sinphi radius : α) (tesseroid : Tesseroid α)
    (density : Option α) (density_func : α → α)
    (lon_glq lat_glq rad_glq : List (α × α))
    (kernel : α → α → α → α → α → α → α → α → α) :
    List (PointMassRecord α) :=
  let a_factor := 1 / 8 * radians (tesseroid.e - tesseroid.w)
    * radians (tesseroid.n - tesseroid.s) * (tesseroid.top - tesseroid.bottom)
  lat_glq.flatMap fun lat_nw =>
    let latitude_p := radians (1 / 2 * (tesseroid.n - tesseroid.s) * lat_nw.1
      + 1 / 2 * (tesseroid.n + tesseroid.s))
    let cosphi_p := cos latitude_p
    let sinphi_p := sin latitude_p
    rad_glq.flatMap fun rad_nw =>
      let radius_p := 1 / 2 * (tesseroid.top - tesseroid.bottom) * rad_nw.1
        + 1 / 2 * (tesseroid.top + tesseroid.bottom)
      let kappa := radius_p ^ 2 * cosphi_p
      lon_glq.map fun lon_nw =>
        let longitude_p := radians (1 / 2 * (tesseroid.e - tesseroid.w) * lon_nw.1
          + 1 / 2 * (tesseroid.e + tesseroid.w))
        let mass := a_factor * kappa * lon_nw.2 * lat_nw.2 * rad_nw.2
        let mass :=
          match density with
          | none => mass * density_func radius_p
          | some d => mass * d
        { longitude_p := longitude_p, latitude_p := latitude_p,
          radius_p := radius_p, mass := mass,
          contribution := mass * kernel longitude cosphi sinphi radius
            longitude_p cosphi_p sinphi_p radius_p }

/-- Reference point-mass list: enumerate the cartesian product of longitude,
latitude and radius nodes independently and compute every quantity of each
point mass from scratch. -/
def glqPointMassesReference {α : Type} [LinearOrderedField α]
    (radians cos sin : α → α)
    (longitude cosphi sinphi radius : α) (tesseroid : Tesseroid α)
    (density : Option α) (density_func : α → α)
    (lon_glq lat_glq rad_glq : List (α × α))
    (kernel : α → α → α → α → α → α → α → α → α) :
    List (PointMassRecord α) :=
  lon_glq.flatMap fun lon_nw =>
    lat_glq.flatMap fun lat_nw =>
      rad_glq.map fun rad_nw =>
        let a_factor := 1 / 8 * radians (tesseroid.e - tesseroid.w)
          * radians (tesseroid.n - tesseroid.s)
          * (tesseroid.top - tesseroid.bottom)
        let longitude_p := radians (1 / 2 * (tesseroid.e - tesseroid.w) * lon_nw.1
          + 1 / 2 * (tesseroid.e + tesseroid.w))
        let latitude_p := radians (1 / 2 * (tesseroid.n - tesseroid.s) * lat_nw.1
          + 1 / 2 * (tesseroid.n + tesseroid.s))
        let radius_p := 1 / 2 * (tesseroid.top - tesseroid.bottom) * rad_nw.1
          + 1 / 2 * (tesseroid.top + tesseroid.bottom)
        let mass := a_factor * (radius_p ^ 2 * cos latitude_p)
          * lon_nw.2 * lat_nw.2 * rad_nw.2
        let mass :=
          match density with
          | none => mass * density_func radius_p
          | some d => mass * d
        { longitude_p := longitude_p, latitude_p := latitude_p,
          radius_p := radius_p, mass := mass,
          contribution := mass * kernel longitude cosphi sinphi radius
            longitude_p (cos latitude_p) (sin latitude_p) radius_p }

/-- Embedding of `straight_line` (tesseroid.py lines 271-278): the reference
line joining the normalized density values at `bottom` and `top`. -/
def straight_line {α : Type} [LinearOrderedField α]
    (radius : α) (normalized_density : α → α) (bottom top : α) : α :=
  let norm_density_bottom := normalized_density bottom
  let norm_density_top := normalized_density top
  let slope := (norm_density_top - norm_density_bottom) / (top - bottom)
  slope * (radius - bottom) + norm_density_bottom

/-- Embedding of `density_minmax` (tesseroid.py lines 229-237).  The SciPy
bounded scalar minimizer is the abstract parameter `minimize`, returning the
pair `(result.x, result.fun)` of the minimizing abscissa and the minimum
value on the given bounds; the maximum of the density is obtained by
minimizing its negation, as in the code. -/
def density_minmax {α : Type} [LinearOrderedField α]
    (minimize : (α → α) → α → α → α × α)
    (density : α → α) (bottom top : α) : α × α :=
  let minimum := minimize density bottom top
  let maximum := minimize (fun radius => -density radius) bottom top
  (minimum.2, -maximum.2)

/-- Embedding of `maximum_absolute_diff` (tesseroid.py lines 240-268):
maximize the absolute difference between the normalized density and the
straight line joining its endpoint values by minimizing its negation with
the bounded scalar minimizer; return `(radius_split, max_diff)`. -/
def maximum_absolute_diff {α : Type} [LinearOrderedField α]
    (minimize : (α → α) → α → α → α × α)
    (normalized_density : α → α) (bottom top : α) : α × α :=
  let absolute_difference := fun radius =>
    |normalized_density radius - straight_line radius normalized_density bottom top|
  let result := minimize (fun radius => -absolute_difference radius) bottom top
  (result.1, -result.2)

/-- Default `np.isclose` comparison (absolute tolerance `1e-8`, relative
tolerance `1e-5`), used by `_density_based_discretization` to detect an
effectively constant density. -/
def isclose {α : Type} [LinearOrderedField α] (a b : α) : Prop :=
  |a - b| ≤ 1 / 10 ^ 8 + 1 / 10 ^ 5 * |b|

instance {α : Type} [LinearOrderedField α] (a b : α) : Decidable (isclose a b) := by
  unfold isclose; infer_instance

/-- Fuel-indexed embedding of the `while pending:` loop of
`_density_based_discretization` (tesseroid.py lines 216-226): `pending` is a
FIFO queue (the code pops with `pending.pop(0)` and appends at the end), and
`w, e, s, n` are the horizontal bounds of the original tesseroid, which the
code captures before the loop and uses for every pushed or accepted slice.
The radial interval of each pending entry is read from the entry itself. -/
def densityLoop {α : Type} [LinearOrderedField α]
    (minimize : (α → α) → α → α → α × α) (normalized_density : α → α)
    (w e s n size_original_tesseroid : α) :
    ℕ → List (Tesseroid α) → List (Tesseroid α) → Option (List (Tesseroid α))
  | _, [], tesseroids => some tesseroids
  | 0, _ :: _, _ => none
  | fuel + 1, tesseroid :: pending, tesseroids =>
    let bottom := tesseroid.bottom
    let top := tesseroid.top
    let rsmd := maximum_absolute_diff minimize normalized_density bottom top
    let size_ratio := (top - bottom) / size_original_tesseroid
    if rsmd.2 * size_ratio > 1 / 10 then
      densityLoop minimize normalized_density w e s n size_original_tesseroid fuel
        (pending ++ [⟨w, e, s, n, rsmd.1, top⟩, ⟨w, e, s, n, bottom, rsmd.1⟩])
        tesseroids
    else
      densityLoop minimize normalized_density w e s n size_original_tesseroid fuel
        pending (tesseroids ++ [⟨w, e, s, n, bottom, top⟩])

/-- Embedding of `_density_based_discretization` (tesseroid.py lines
185-226): compute the density extrema with the bounded minimizer, return the
tesseroid unsplit when they are `np.isclose`, and otherwise refine the
radial interval with the pending-queue loop, starting from the whole
tesseroid with an empty output list.  The threshold `1/10` in the loop is
the module constant `DELTA_RATIO = 0.1`. -/
def _density_based_discretization {α : Type} [LinearOrderedField α]
    (minimize : (α → α) → α → α → α × α)
    (density : α → α) (tesseroid : Tesseroid α) (fuel : ℕ) :
    Option (List (Tesseroid α)) :=
  let dmm := density_minmax minimize density tesseroid.bottom tesseroid.top
  let normalized_density := fun radius => (density radius - dmm.1) / (dmm.2 - dmm.1)
  if isclose dmm.1 dmm.2 then
    some [tesseroid]
  else
    densityLoop minimize normalized_density tesseroid.w tesseroid.e tesseroid.s
      tesseroid.n (tesseroid.top - tesseroid.bottom) fuel [tesseroid] []

/-- Closed box of a tesseroid in `(longitude, latitude, radius)` space. -/
def Tesseroid.box {α : Type} [LinearOrderedField α] (t : Tesseroid α) :
    Set (α × α × α) :=
  {p | t.w ≤ p.1 ∧ p.1 ≤ t.e ∧ t.s ≤ p.2.1 ∧ p.2.1 ≤ t.n ∧
    t.bottom ≤ p.2.2 ∧ p.2.2 ≤ t.top}

/-- Open interior of the box of a tesseroid. -/
def Tesseroid.openBox {α : Type} [LinearOrderedField α] (t : Tesseroid α) :
    Set (α × α × α) :=
  {p | t.w < p.1 ∧ p.1 < t.e ∧ t.s < p.2.1 ∧ p.2.1 < t.n ∧
    t.bottom < p.2.2 ∧ p.2.2 < t.top}

/-- Geometric validity of a tesseroid: every lower bound at most the
corresponding upper bound. -/
def Tesseroid.IsValidBox {α : Type} [LinearOrderedField α] (t : Tesseroid α) :
    Prop :=
  t.w ≤ t.e ∧ t.s ≤ t.n ∧ t.bottom ≤ t.top

instance {α : Type} [LinearOrderedField α] (t : Tesseroid α) :
    Decidable t.IsValidBox := by
  unfold Tesseroid.IsValidBox; infer_instance

/-- Region covered by a list of tesseroids: the union of their closed
boxes. -/
def coveredRegion {α : Type} [LinearOrderedField α] (l : List (Tesseroid α)) :
    Set (α × α × α) :=
  {p | ∃ u ∈ l, p ∈ u.box}

/-- Pairwise disjointness of the interiors of a list of tesseroids. -/
def InteriorsDisjoint {α : Type} [LinearOrderedField α]
    (l : List (Tesseroid α)) : Prop :=
  l.Pairwise fun u v => u.openBox ∩ v.openBox = ∅

/-- A list of tesseroids tiles a tesseroid exactly: every member is a valid
box, their closed boxes cover precisely the closed box of the tesseroid, and
their interiors are pairwise disjoint. -/
def TilesExactly {α : Type} [LinearOrderedField α]
    (t : Tesseroid α) (l : List (Tesseroid α)) : Prop :=
  (∀ u ∈ l, u.IsValidBox) ∧ coveredRegion l = t.box ∧ InteriorsDisjoint l

/-- Python float modulo for a positive modulus:
`x % y = x - y * floor(x / y)` (the result has the sign of `y`). -/
def pymod (x y : ℚ) : ℚ := x - y * ⌊x / y⌋

/-- Remapping applied by `_longitude_continuity` to each longitudinal bound
of a tesseroid whose west bound exceeds its east bound:
`x -> ((x + 180) % 360) - 180`. -/
def remapLongitude (x : ℚ) : ℚ := pymod (x + 180) 360 - 180

/-- Embedding of `_longitude_continuity` (tesseroid.py lines 869-898): a new
collection where both longitudinal bounds of every tesseroid with
`west > east` are remapped to the `[-180, 180)` interval, and every other
tesseroid passes through unchanged. -/
def _longitude_continuity (tesseroids : List (Tesseroid ℚ)) :
    List (Tesseroid ℚ) :=
  tesseroids.map fun t =>
    if t.w > t.e then
      { t with w := remapLongitude t.w, e := remapLongitude t.e }
    else t

/-- Reasons for which `_check_tesseroids` rejects a tesseroid collection,
one per `raise ValueError` site, in the order the code tests them. -/
inductive CheckError where
  | latitudeOutOfRange
  | southGreaterThanNorth
  | negativeRadius
  | bottomGreaterThanTop
  | longitudeOutOfRange
  | westGreaterThanEast
  | longitudeSpanTooLarge
deriving DecidableEq, Repr

/-- Embedding of `_check_tesseroids` (tesseroid.py lines 694-805): validate
latitudinal bounds, south against north, radial positivity, bottom against
top and longitudinal bounds; then apply `_longitude_continuity` when some
tesseroid has `west > east`, and finally reject any remaining `west > east`
and any longitudinal span above one turn around the globe.  On success the
(possibly remapped) collection is returned. -/
def _check_tesseroids (tesseroids : List (Tesseroid ℚ)) :
    Except CheckError (List (Tesseroid ℚ)) :=
  if tesseroids.any fun t =>
      decide (t.s < -90 ∨ t.s > 90 ∨ t.n < -90 ∨ t.n > 90) then
    .error .latitudeOutOfRange
  else if tesseroids.any fun t => decide (t.s > t.n) then
    .error .southGreaterThanNorth
  else if tesseroids.any fun t => decide (t.bottom < 0 ∨ t.top < 0) then
    .error .negativeRadius
  else if tesseroids.any fun t => decide (t.bottom > t.top) then
    .error .bottomGreaterThanTop
  else if tesseroids.any fun t =>
      decide (t.w < -180 ∨ t.w > 360 ∨ t.e < -180 ∨ t.e > 360) then
    .error .longitudeOutOfRange
  else
    let tesseroids :=
      if tesseroids.any fun t => decide (t.w > t.e) then
        _longitude_continuity tesseroids
      else tesseroids
    if tesseroids.any fun t => decide (t.w > t.e) then
      .error .westGreaterThanEast
    else if tesseroids.any fun t => decide (t.e - t.w > 360) then
      .error .longitudeSpanTooLarge
    else
      .ok tesseroids

/-- Embedding of `_check_points_outside_tesseroids` (tesseroid.py lines
808-866): `true` when some computation point lies strictly inside some
tesseroid, comparing the longitudinal bounds against the point longitude
moved to `[0, 360)` and to `[-180, 180)`. -/
def _check_points_outside_tesseroids (coordinates : List (ℚ × ℚ × ℚ))
    (tesseroids : List (Tesseroid ℚ)) : Bool :=
  coordinates.any fun p =>
    tesseroids.any fun t =>
      let longitude_360 := pymod p.1 360
      let longitude_180 := pymod (p.1 + 180) 360 - 180
      decide (((t.w < longitude_360 ∧ longitude_360 < t.e) ∨
          (t.w < longitude_180 ∧ longitude_180 < t.e)) ∧
        (t.s < p.2.1 ∧ p.2.1 < t.n) ∧ (t.bottom < p.2.2 ∧ p.2.2 < t.top))

/-- Errors raised by `tesseroid_gravity`, one per `raise` site reachable in
the constant-density branch of the code. -/
inductive TessGravityError where
  | fieldNotRecognized
  | invalidTesseroids (e : CheckError)
  | pointInsideTesseroid
  | densitySizeMismatch
deriving DecidableEq, Repr

/-- Distance-size ratio table `DISTANCE_SIZE_RATII` of the module:
`potential -> 1`, `g_z -> 2.5`; only consulted after the field name has been
validated. -/
def DISTANCE_SIZE_RATII (field : String) : ℚ :=
  if field = "g_z" then 5 / 2 else 1

/-- Embedding of the constant-density branch of `tesseroid_gravity`
(tesseroid.py lines 120-167).  Coordinates are the flattened list of
computation points (the broadcast of the input arrays); the whole
numeric stage — GLQ degrees, adaptive discretization and kernel
accumulation per point, i.e. the `dispatcher(parallel)(...)` call — is the
abstract parameter `compute`, mapped over the points, and the gravitational
constant (imported from `harmonica.constants`) is the parameter
`gravitational_const`.  The code validates the field name, optionally
validates the tesseroids (rebinding them to the checked, possibly remapped
collection) and the point locations, optionally validates the density
length, computes, multiplies by the gravitational constant, and multiplies
by `1e5` exactly for the `g_z` field. -/
def tesseroid_gravity (coordinates : List (ℚ × ℚ × ℚ))
    (tesseroids : List (Tesseroid ℚ)) (density : List ℚ) (field : String)
    (radial_adaptive_discretization disable_checks : Bool)
    (gravitational_const : ℚ)
    (compute : (ℚ × ℚ × ℚ) → List (Tesseroid ℚ) → List ℚ → ℚ → Bool → ℚ) :
    Except TessGravityError (List ℚ) :=
  if ¬(field = "potential" ∨ field = "g_z") then
    .error .fieldNotRecognized
  else
    match
      (if disable_checks then .ok tesseroids else _check_tesseroids tesseroids :
        Except CheckError (List (Tesseroid ℚ))) with
    | .error e => .error (.invalidTesseroids e)
    | .ok tesseroids =>
      if disable_checks = false ∧
          _check_points_outside_tesseroids coordinates tesseroids = true then
        .error .pointInsideTesseroid
      else if disable_checks = false ∧ density.length ≠ tesseroids.length then
        .error .densitySizeMismatch
      else
        let result := coordinates.map fun p =>
          compute p tesseroids density (DISTANCE_SIZE_RATII field)
            radial_adaptive_discretization
        let result := result.map fun r => r * gravitational_const
        .ok (if field = "g_z" then result.map fun r => r * 100000 else result)

theorem sum_map_flatMap {α β γ : Type} [AddCommMonoid γ] (l : List α)
    (f : α → List β) (g : β → γ) :
    ((l.flatMap f).map g).sum = (l.map fun a => ((f a).map g).sum).sum := by
  induction l with
  | nil => simp
  | cons x xs ih => simp [List.flatMap_cons, List.map_append, List.sum_append, ih]

theorem sum_map_swap {α β γ : Type} [AddCommMonoid γ] (xs : List α)
    (ys : List β) (f : α → β → γ) :
    (xs.map fun x => (ys.map fun y => f x y).sum).sum =
      (ys.map fun y => (xs.map fun x => f x y).sum).sum := by
  induction xs with
  | nil => simp
  | cons x xs ih => simp [ih, List.sum_map_add]

theorem split_eq_specChildren {α : Type} [LinearOrderedField α]
    (t : Tesseroid α) (n_lon n_lat n_rad : ℕ)
    (ha : n_lon = 1 ∨ n_lon = 2) (hb : n_lat = 1 ∨ n_lat = 2)
    (hc : n_rad = 1 ∨ n_rad = 2) :
    _split_tesseroid t n_lon n_lat n_rad = specChildren t n_lon n_lat n_rad := by
  rcases ha with ha | ha <;> rcases hb with hb | hb <;> rcases hc with hc | hc <;>
    subst ha hb hc <;>
    simp only [_split_tesseroid, specChildren, axisHalves, List.range_succ,
      List.range_zero, List.nil_append, List.flatMap_cons, List.flatMap_nil,
      List.map_cons, List.map_nil, List.append_nil, List.cons_append,
      List.cons.injEq, Tesseroid.mk.injEq, and_true, Nat.cast_one,
      Nat.cast_ofNat, Nat.cast_zero, if_true, if_false] <;>
    norm_num <;>
    (repeat' apply And.intro) <;> ring

/-- C1: each iteration of the adaptive-discretization loop pops one
tesseroid from the LIFO stack, computes its dimensions and its
center-to-point distance `d`, sets the longitude split count `n_lon` to 2
if and only if `d / l_lon < distance_size_ratio` (analogously `n_lat`;
`n_rad` is 2 only when additionally radial discretization is enabled,
otherwise 1), and then: if `n_lon*n_lat*n_rad > 1` it pushes exactly the
`n_lon*n_lat*n_rad` children obtained by splitting each selected axis into
2 equal halves (cartesian product of per-axis halves), and otherwise it
appends the popped tesseroid unchanged to the output buffer as a final
leaf.  Stated for capacities large enough that no overflow error fires. -/
theorem adaptive_step_pops_splits_or_appends {α : Type} [LinearOrderedField α]
    (dims : Tesseroid α → α × α × α) (dist : α × α × α → Tesseroid α → α)
    (coordinates : α × α × α) (distance_size_ratio : α)
    (radial_discretization : Bool) (tesseroid : Tesseroid α)
    (rest out : List (Tesseroid α)) (stack_size max_discretizations : ℕ)
    (hdsr : 0 < distance_size_ratio)
    (hstack : rest.length + 8 ≤ stack_size)
    (hout : out.length < max_discretizations) :
    ∃ n_lon n_lat n_rad : ℕ,
      (n_lon = 1 ∨ n_lon = 2) ∧ (n_lat = 1 ∨ n_lat = 2) ∧
      (n_rad = 1 ∨ n_rad = 2) ∧
      (n_lon = 2 ↔
        dist coordinates tesseroid / (dims tesseroid).1 < distance_size_ratio) ∧
      (n_lat = 2 ↔
        dist coordinates tesseroid / (dims tesseroid).2.1 < distance_size_ratio) ∧
      (n_rad = 2 ↔
        (dist coordinates tesseroid / (dims tesseroid).2.2 < distance_size_ratio ∧
          radial_discretization = true)) ∧
      (specChildren tesseroid n_lon n_lat n_rad).length =
        n_lon * n_lat * n_rad ∧
      (1 < n_lon * n_lat * n_rad →
        adaptiveStep dims dist coordinates distance_size_ratio
            radial_discretization stack_size max_discretizations
            tesseroid rest out =
          .ok ((specChildren tesseroid n_lon n_lat n_rad).reverse ++ rest,
            out)) ∧
      (n_lon * n_lat * n_rad = 1 →
        adaptiveStep dims dist coordinates distance_size_ratio
            radial_discretization stack_size max_discretizations
            tesseroid rest out =
          .ok (rest, out ++ [tesseroid])) := by
  by_cases h1 : dist coordinates tesseroid / (dims tesseroid).1 <
      distance_size_ratio <;>
    by_cases h2 : dist coordinates tesseroid / (dims tesseroid).2.1 <
      distance_size_ratio <;>
      by_cases h3 : dist coordinates tesseroid / (dims tesseroid).2.2 <
          distance_size_ratio ∧ radial_discretization = true <;>
    exact ⟨if dist coordinates tesseroid / (dims tesseroid).1 <
        distance_size_ratio then 2 else 1,
      if dist coordinates tesseroid / (dims tesseroid).2.1 <
        distance_size_ratio then 2 else 1,
      if dist coordinates tesseroid / (dims tesseroid).2.2 <
          distance_size_ratio ∧ radial_discretization = true then 2 else 1,
      by simp [h1, h2, h3],
      by simp [h1, h2, h3],
      by simp [h1, h2, h3],
      by simp [h1, h2, h3],
      by simp [h1, h2, h3],
      by simp [h1, h2, h3],
      by norm_num [specChildren, axisHalves, h1, h2, h3],
      by
        simp only [h1, h2, h3, if_true, if_false, ite_true, ite_false,
          eq_self_iff_true, not_false_iff, and_self, and_true, true_and,
          false_and, and_false]
        intro hgt
        first
        | omega
        | (norm_num [adaptiveStep, h1, h2, h3]
           first
           | (rw [if_neg (by omega),
                split_eq_specChildren _ _ _ _ (by omega) (by omega) (by omega)])
           | (intro hc; omega)
           | omega),
      by
        simp only [h1, h2, h3, if_true, if_false, ite_true, ite_false,
          eq_self_iff_true, not_false_iff, and_self, and_true, true_and,
          false_and, and_false]
        intro heq
        first
        | omega
        | (norm_num [adaptiveStep, h1, h2, h3]
           first
           | (rw [if_neg (by omega)])
           | (intro hc; omega)
           | omega)⟩

/-- Witness for C1: the characterization applied to a concrete tesseroid,
point and dimension/distance functions (no axis close enough to split, so
the tesseroid is appended as a leaf). -/
theorem adaptive_step_pops_splits_or_appends_witness :
    ∃ n_lon n_lat n_rad : ℕ,
      (n_lon = 1 ∨ n_lon = 2) ∧ (n_lat = 1 ∨ n_lat = 2) ∧
      (n_rad = 1 ∨ n_rad = 2) ∧
      (n_lon = 2 ↔ (10 : ℚ) / 1 < 1) ∧
      (n_lat = 2 ↔ (10 : ℚ) / 1 < 1) ∧
      (n_rad = 2 ↔ ((10 : ℚ) / 1 < 1 ∧ false = true)) ∧
      (specChildren (⟨0, 1, 0, 1, 0, 1⟩ : Tesseroid ℚ) n_lon n_lat n_rad).length =
        n_lon * n_lat * n_rad ∧
      (1 < n_lon * n_lat * n_rad →
        adaptiveStep (fun _ => ((1 : ℚ), 1, 1)) (fun _ _ => (10 : ℚ))
            (0, 0, 0) 1 false 100 100000 ⟨0, 1, 0, 1, 0, 1⟩ [] [] =
          .ok ((specChildren (⟨0, 1, 0, 1, 0, 1⟩ : Tesseroid ℚ)
            n_lon n_lat n_rad).reverse ++ [], [])) ∧
      (n_lon * n_lat * n_rad = 1 →
        adaptiveStep (fun _ => ((1 : ℚ), 1, 1)) (fun _ _ => (10 : ℚ))
            (0, 0, 0) 1 false 100 100000 ⟨0, 1, 0, 1, 0, 1⟩ [] [] =
          .ok ([], [] ++ [⟨0, 1, 0, 1, 0, 1⟩])) :=
  adaptive_step_pops_splits_or_appends (fun _ => ((1 : ℚ), 1, 1))
    (fun _ _ => (10 : ℚ)) (0, 0, 0) 1 false ⟨0, 1, 0, 1, 0, 1⟩ [] [] 100 100000
    (by norm_num) (by norm_num) (by norm_num)

theorem adaptiveStep_out_extends {α : Type} [LinearOrderedField α]
    (dims : Tesseroid α → α × α × α) (dist : α × α × α → Tesseroid α → α)
    (coordinates : α × α × α) (distance_size_ratio : α)
    (radial_discretization : Bool) (stack_size max_discretizations : ℕ)
    (tesseroid : Tesseroid α) (rest out stack' out' : List (Tesseroid α))
    (h : adaptiveStep dims dist coordinates distance_size_ratio
        radial_discretization stack_size max_discretizations
        tesseroid rest out = .ok (stack', out')) :
    out' = out ∨ out' = out ++ [tesseroid] := by
  simp only [adaptiveStep] at h
  split_ifs at h <;>
    first
    | (rw [Except.ok.injEq, Prod.mk.injEq] at h
       exact Or.inl h.2.symm)
    | (rw [Except.ok.injEq, Prod.mk.injEq] at h
       exact Or.inr h.2.symm)
    | simp at h

theorem adaptiveLoop_ok_extends {α : Type} [LinearOrderedField α]
    (dims : Tesseroid α → α × α × α) (dist : α × α × α → Tesseroid α → α)
    (coordinates : α × α × α) (distance_size_ratio : α)
    (radial_discretization : Bool) (stack_size max_discretizations : ℕ) :
    ∀ (fuel : ℕ) (stack out leaves : List (Tesseroid α)),
      adaptiveLoop dims dist coordinates distance_size_ratio
          radial_discretization stack_size max_discretizations fuel stack out =
        .ok leaves →
      ∃ extra, leaves = out ++ extra := by
  intro fuel
  induction fuel with
  | zero =>
    intro stack out leaves h
    cases stack with
    | nil => exact ⟨[], by simpa [adaptiveLoop] using h.symm⟩
    | cons t rest => simp [adaptiveLoop] at h
  | succ fuel ih =>
    intro stack out leaves h
    cases stack with
    | nil => exact ⟨[], by simpa [adaptiveLoop] using h.symm⟩
    | cons t rest =>
      rw [adaptiveLoop] at h
      cases hstep : adaptiveStep dims dist coordinates distance_size_ratio
          radial_discretization stack_size max_discretizations t rest out with
      | error e => rw [hstep] at h; simp at h
      | ok p =>
        rw [hstep] at h
        obtain ⟨extra, hex⟩ := ih p.1 p.2 leaves h
        rcases adaptiveStep_out_extends dims dist coordinates
            distance_size_ratio radial_discretization stack_size
            max_discretizations t rest out p.1 p.2 (by rw [hstep]) with ho | ho
        · exact ⟨extra, by rw [hex, ho]⟩
        · exact ⟨[t] ++ extra, by
            rw [hex, ho]
            simp⟩

/-- C2: the adaptive discretization raises a fatal overflow error exactly
when pushing the children of a split would make the stack hold more than
`STACK_SIZE` (100) tesseroids, or when appending one more leaf would exceed
the output capacity `MAX_DISCRETIZATIONS` (100000); on error the whole loop
aborts with that error, and when no error is raised every leaf already in
the buffer is part of the returned buffer (no silent truncation). -/
theorem adaptive_discretization_overflow_exactly {α : Type}
    [LinearOrderedField α]
    (dims : Tesseroid α → α × α × α) (dist : α × α × α → Tesseroid α → α)
    (coordinates : α × α × α) (distance_size_ratio : α)
    (radial_discretization : Bool) (tesseroid : Tesseroid α)
    (rest out : List (Tesseroid α)) :
    (STACK_SIZE = 100 ∧ MAX_DISCRETIZATIONS = 100000) ∧
    (∀ fuel, _adaptive_discretization dims dist coordinates tesseroid
        distance_size_ratio radial_discretization fuel =
      adaptiveLoop dims dist coordinates distance_size_ratio
        radial_discretization STACK_SIZE MAX_DISCRETIZATIONS fuel
        [tesseroid] []) ∧
    (∃ n_lon n_lat n_rad : ℕ,
      (n_lon = 2 ↔
        dist coordinates tesseroid / (dims tesseroid).1 < distance_size_ratio) ∧
      (n_lat = 2 ↔
        dist coordinates tesseroid / (dims tesseroid).2.1 < distance_size_ratio) ∧
      (n_rad = 2 ↔
        (dist coordinates tesseroid / (dims tesseroid).2.2 < distance_size_ratio ∧
          radial_discretization = true)) ∧
      (adaptiveStep dims dist coordinates distance_size_ratio
          radial_discretization STACK_SIZE MAX_DISCRETIZATIONS
          tesseroid rest out = .error .stackOverflow ↔
        1 < n_lon * n_lat * n_rad ∧
          STACK_SIZE < rest.length + n_lon * n_lat * n_rad) ∧
      (adaptiveStep dims dist coordinates distance_size_ratio
          radial_discretization STACK_SIZE MAX_DISCRETIZATIONS
          tesseroid rest out = .error .maxDiscretizations ↔
        n_lon * n_lat * n_rad = 1 ∧
          MAX_DISCRETIZATIONS < out.length + 1) ∧
      (∀ er, adaptiveStep dims dist coordinates distance_size_ratio
            radial_discretization STACK_SIZE MAX_DISCRETIZATIONS
            tesseroid rest out = .error er →
        ∀ fuel, adaptiveLoop dims dist coordinates distance_size_ratio
            radial_discretization STACK_SIZE MAX_DISCRETIZATIONS (fuel + 1)
            (tesseroid :: rest) out = .err er)) ∧
    (∀ (fuel : ℕ) (stack out0 leaves : List (Tesseroid α)),
      adaptiveLoop dims dist coordinates distance_size_ratio
          radial_discretization STACK_SIZE MAX_DISCRETIZATIONS fuel
          stack out0 = .ok leaves →
      ∃ extra, leaves = out0 ++ extra) := by
  refine ⟨⟨rfl, rfl⟩, fun _ => rfl, ?_,
    adaptiveLoop_ok_extends dims dist coordinates distance_size_ratio
      radial_discretization STACK_SIZE MAX_DISCRETIZATIONS⟩
  by_cases h1 : dist coordinates tesseroid / (dims tesseroid).1 <
      distance_size_ratio <;>
    by_cases h2 : dist coordinates tesseroid / (dims tesseroid).2.1 <
      distance_size_ratio <;>
      by_cases h3 : dist coordinates tesseroid / (dims tesseroid).2.2 <
          distance_size_ratio ∧ radial_discretization = true <;>
    exact ⟨if dist coordinates tesseroid / (dims tesseroid).1 <
        distance_size_ratio then 2 else 1,
      if dist coordinates tesseroid / (dims tesseroid).2.1 <
        distance_size_ratio then 2 else 1,
      if dist coordinates tesseroid / (dims tesseroid).2.2 <
          distance_size_ratio ∧ radial_discretization = true then 2 else 1,
      by simp [h1, h2, h3],
      by simp [h1, h2, h3],
      by simp [h1, h2, h3],
      by
        norm_num [adaptiveStep, h1, h2, h3]
        first
        | (split_ifs with hg <;> simp [hg] <;> omega)
        | (simp
           omega)
        | simp
        | omega,
      by
        norm_num [adaptiveStep, h1, h2, h3]
        first
        | (split_ifs with hg <;> simp [hg] <;> omega)
        | (simp
           omega)
        | simp
        | omega,
      by
        intro er hstep fuel
        rw [adaptiveLoop, hstep]⟩

/-- Witness for C2: with a constant unit dimension function, a distance of
zero and a stack already holding 97 tesseroids, one split of 4 children
would bring the stack to 101 > 100, so the loop aborts with a stack
overflow. -/
theorem adaptive_discretization_overflow_exactly_witness :
    adaptiveLoop (fun _ => ((1 : ℚ), 1, 1)) (fun _ _ => (0 : ℚ)) (0, 0, 0) 1
        false STACK_SIZE MAX_DISCRETIZATIONS 1
        ((⟨0, 1, 0, 1, 0, 1⟩ : Tesseroid ℚ) ::
          List.replicate 97 ⟨0, 1, 0, 1, 0, 1⟩) [] =
      .err .stackOverflow := by
  obtain ⟨-, -, ⟨n_lon, n_lat, n_rad, -, -, -, -, -, habort⟩, -⟩ :=
    adaptive_discretization_overflow_exactly (fun _ => ((1 : ℚ), 1, 1))
      (fun _ _ => (0 : ℚ)) (0, 0, 0) 1 false ⟨0, 1, 0, 1, 0, 1⟩
      (List.replicate 97 ⟨0, 1, 0, 1, 0, 1⟩) []
  exact habort .stackOverflow (by norm_num [adaptiveStep, STACK_SIZE]) 0

theorem sum_map_rotate {α β γ δ : Type} [AddCommMonoid δ] (xs : List α)
    (ys : List β) (zs : List γ) (f : α → β → γ → δ) :
    (xs.map fun x => (ys.map fun y => (zs.map fun z => f x y z).sum).sum).sum =
      (ys.map fun y => (zs.map fun z => (xs.map fun x => f x y z).sum).sum).sum
    := by
  rw [sum_map_swap xs ys fun x y => (zs.map fun z => f x y z).sum]
  have h : (fun y => (xs.map fun x => (zs.map fun z => f x y z).sum).sum) =
      fun y => (zs.map fun z => (xs.map fun x => f x y z).sum).sum := by
    funext y
    exact sum_map_swap xs zs fun x z => f x y z
  rw [h]

/-- C3: `gauss_legendre_quadrature` returns the sum, over the cartesian
product of one longitude node, one latitude node and one radius node, of
`mass * kernel(point, point-mass location)`, with the affine node
rescaling, the scale factor `A`, the `kappa` factor and the point-mass
weight `mass = A * kappa * w_lon * w_lat * w_rad * density(radius_p)` (the
constant density in the constant-density case) as the specification states
them. -/
theorem gauss_legendre_quadrature_eq_cartesian_sum {α : Type}
    [LinearOrderedField α] (radians cos sin : α → α)
    (longitude cosphi sinphi radius : α) (tesseroid : Tesseroid α)
    (density : Option α) (density_func : α → α)
    (lon_glq lat_glq rad_glq : List (α × α))
    (kernel : α → α → α → α → α → α → α → α → α) :
    gauss_legendre_quadrature radians cos sin longitude cosphi sinphi radius
        tesseroid density density_func lon_glq lat_glq rad_glq kernel =
      glqCartesianSum radians cos sin longitude cosphi sinphi radius
        tesseroid density density_func lon_glq lat_glq rad_glq kernel := by
  cases density with
  | none =>
    simp only [gauss_legendre_quadrature, glqCartesianSum, glqTriples,
      sum_map_flatMap, List.map_map, Function.comp]
    conv_rhs => rw [sum_map_rotate]
    rfl
  | some d =>
    simp only [gauss_legendre_quadrature, glqCartesianSum, glqTriples,
      sum_map_flatMap, List.map_map, Function.comp]
    conv_rhs => rw [sum_map_rotate]
    rfl

/-- C9: the optimized nested-loop order of the GLQ evaluator (latitude
outer with cached trigonometric values, radius middle with cached `kappa`,
longitude inner) generates exactly the same set of point masses — each with
the same individual mass and kernel contribution — as a reference
enumeration of the cartesian product of longitude, latitude and radius
nodes computed from scratch, and the two contribution sums are equal; the
result of the evaluator is the loop-order sum. -/
theorem glq_loop_order_refines_reference {α : Type} [LinearOrderedField α]
    (radians cos sin : α → α)
    (longitude cosphi sinphi radius : α) (tesseroid : Tesseroid α)
    (density : Option α) (density_func : α → α)
    (lon_glq lat_glq rad_glq : List (α × α))
    (kernel : α → α → α → α → α → α → α → α → α) :
    gauss_legendre_quadrature radians cos sin longitude cosphi sinphi radius
        tesseroid density density_func lon_glq lat_glq rad_glq kernel =
      ((glqPointMassesLoop radians cos sin longitude cosphi sinphi radius
        tesseroid density density_func lon_glq lat_glq rad_glq kernel).map
          PointMassRecord.contribution).sum ∧
    ((glqPointMassesLoop radians cos sin longitude cosphi sinphi radius
        tesseroid density density_func lon_glq lat_glq rad_glq kernel).map
          PointMassRecord.contribution).sum =
      ((glqPointMassesReference radians cos sin longitude cosphi sinphi radius
        tesseroid density density_func lon_glq lat_glq rad_glq kernel).map
          PointMassRecord.contribution).sum ∧
    (∀ pm : PointMassRecord α,
      pm ∈ glqPointMassesLoop radians cos sin longitude cosphi sinphi radius
        tesseroid density density_func lon_glq lat_glq rad_glq kernel ↔
      pm ∈ glqPointMassesReference radians cos sin longitude cosphi sinphi
        radius tesseroid density density_func lon_glq lat_glq rad_glq kernel)
    := by
  refine ⟨?_, ?_, ?_⟩
  · cases density with
    | none =>
      simp only [gauss_legendre_quadrature, glqPointMassesLoop,
        sum_map_flatMap, List.map_map, Function.comp]
      rfl
    | some d =>
      simp only [gauss_legendre_quadrature, glqPointMassesLoop,
        sum_map_flatMap, List.map_map, Function.comp]
      rfl
  · cases density with
    | none =>
      simp only [glqPointMassesLoop, glqPointMassesReference,
        sum_map_flatMap, List.map_map, Function.comp]
      conv_rhs => rw [sum_map_rotate]
      rfl
    | some d =>
      simp only [glqPointMassesLoop, glqPointMassesReference,
        sum_map_flatMap, List.map_map, Function.comp]
      conv_rhs => rw [sum_map_rotate]
      rfl
  · intro pm
    simp only [glqPointMassesLoop, glqPointMassesReference, List.mem_flatMap,
      List.mem_map]
    constructor
    · rintro ⟨lat_nw, hlat, rad_nw, hrad, lon_nw, hlon, rfl⟩
      exact ⟨lon_nw, hlon, lat_nw, hlat, rad_nw, hrad, rfl⟩
    · rintro ⟨lon_nw, hlon, lat_nw, hlat, rad_nw, hrad, rfl⟩
      exact ⟨lat_nw, hlat, rad_nw, hrad, lon_nw, hlon, rfl⟩

/-- C4: density-based discretization of one tesseroid returns the tesseroid
unsplit exactly when the density extrema over `[bottom, top]` are equal
within floating tolerance; otherwise it runs the pending-queue refinement
in which a popped radial interval is split at the radius of maximum
absolute difference between the normalized density and its straight line
if and only if `max_diff * ((top-bottom)/original_extent) > 0.1` — pushing
`(split, top)` then `(bottom, split)` — and is otherwise accepted as a
final radial slice carrying the original horizontal bounds. -/
theorem density_based_discretization_characterization {α : Type}
    [LinearOrderedField α] (minimize : (α → α) → α → α → α × α)
    (density : α → α) (tesseroid : Tesseroid α) (fuel : ℕ) :
    (isclose (density_minmax minimize density tesseroid.bottom
          tesseroid.top).1
        (density_minmax minimize density tesseroid.bottom tesseroid.top).2 →
      _density_based_discretization minimize density tesseroid fuel =
        some [tesseroid]) ∧
    (¬ isclose (density_minmax minimize density tesseroid.bottom
          tesseroid.top).1
        (density_minmax minimize density tesseroid.bottom tesseroid.top).2 →
      _density_based_discretization minimize density tesseroid fuel =
        densityLoop minimize
          (fun radius => (density radius -
              (density_minmax minimize density tesseroid.bottom
                tesseroid.top).1) /
            ((density_minmax minimize density tesseroid.bottom
                tesseroid.top).2 -
              (density_minmax minimize density tesseroid.bottom
                tesseroid.top).1))
          tesseroid.w tesseroid.e tesseroid.s tesseroid.n
          (tesseroid.top - tesseroid.bottom) fuel [tesseroid] []) ∧
    (∀ (normalized_density : α → α) (w e s n size : α) (fuel0 : ℕ)
        (pend : Tesseroid α) (pending out : List (Tesseroid α)),
      ((maximum_absolute_diff minimize normalized_density pend.bottom
            pend.top).2 * ((pend.top - pend.bottom) / size) > 1 / 10 →
        densityLoop minimize normalized_density w e s n size (fuel0 + 1)
            (pend :: pending) out =
          densityLoop minimize normalized_density w e s n size fuel0
            (pending ++
              [⟨w, e, s, n, (maximum_absolute_diff minimize
                normalized_density pend.bottom pend.top).1, pend.top⟩,
               ⟨w, e, s, n, pend.bottom, (maximum_absolute_diff minimize
                normalized_density pend.bottom pend.top).1⟩]) out) ∧
      (¬ ((maximum_absolute_diff minimize normalized_density pend.bottom
            pend.top).2 * ((pend.top - pend.bottom) / size) > 1 / 10) →
        densityLoop minimize normalized_density w e s n size (fuel0 + 1)
            (pend :: pending) out =
          densityLoop minimize normalized_density w e s n size fuel0 pending
            (out ++ [⟨w, e, s, n, pend.bottom, pend.top⟩]))) := by
  refine ⟨fun h => ?_, fun h => ?_, fun nd w e s n size fuel0 pend pending out
    => ⟨fun h => ?_, fun h => ?_⟩⟩
  · simp [_density_based_discretization, h]
  · simp [_density_based_discretization, h]
  · rw [densityLoop, if_pos h]
  · rw [densityLoop, if_neg h]

/-- Witness for C4: with a concrete bounded-minimizer capability that probes
the lower endpoint, an identity density is flat, so the tesseroid comes back
unsplit, and a queue step whose maximum difference is zero accepts the
popped slice with the original horizontal bounds. -/
theorem density_based_discretization_characterization_witness :
    (_density_based_discretization (fun f a _ => (a, f a)) (fun r => r)
        (⟨0, 1, 0, 1, 0, 10⟩ : Tesseroid ℚ) 5 = some [⟨0, 1, 0, 1, 0, 10⟩]) ∧
    (densityLoop (fun f a _ => (a, f a)) (fun r => r) 0 1 0 1 1 (4 + 1)
        ((⟨0, 1, 0, 1, 0, 10⟩ : Tesseroid ℚ) :: []) [] =
      densityLoop (fun f a _ => (a, f a)) (fun r => r) 0 1 0 1 1 4 []
        ([] ++ [⟨0, 1, 0, 1, 0, 10⟩])) := by
  obtain ⟨hclose, -, hstep⟩ :=
    density_based_discretization_characterization
      (fun f a _ => (a, f a)) (fun r => r) (⟨0, 1, 0, 1, 0, 10⟩ : Tesseroid ℚ) 5
  refine ⟨hclose (by norm_num [isclose, density_minmax]), ?_⟩
  have h := (hstep (fun r => r) 0 1 0 1 1 4 ⟨0, 1, 0, 1, 0, 10⟩ [] []).2
    (by norm_num [maximum_absolute_diff, straight_line])
  simpa using h

theorem pymod_nonneg_lt (x y : ℚ) (hy : 0 < y) :
    0 ≤ pymod x y ∧ pymod x y < y := by
  have h1 : (⌊x / y⌋ : ℚ) ≤ x / y := Int.floor_le _
  have h2 : x / y < ⌊x / y⌋ + 1 := Int.lt_floor_add_one _
  have hy' : y ≠ 0 := ne_of_gt hy
  constructor
  · have := mul_le_mul_of_nonneg_left h1 (le_of_lt hy)
    rw [mul_div_cancel₀ x hy'] at this
    simpa [pymod] using this
  · have := mul_lt_mul_of_pos_left h2 hy
    rw [mul_div_cancel₀ x hy'] at this
    simp only [pymod]
    linarith

theorem remapLongitude_range (x : ℚ) :
    -180 ≤ remapLongitude x ∧ remapLongitude x < 180 := by
  obtain ⟨h0, h1⟩ := pymod_nonneg_lt (x + 180) 360 (by norm_num)
  constructor <;> simp only [remapLongitude] <;> linarith

theorem remapLongitude_fixed (x : ℚ) (h0 : -180 ≤ x) (h1 : x < 180) :
    remapLongitude x = x := by
  have hfloor : ⌊(x + 180) / 360⌋ = 0 := by
    rw [Int.floor_eq_zero_iff, Set.mem_Ico]
    constructor
    · apply div_nonneg <;> linarith
    · rw [div_lt_one (by norm_num)]
      linarith
  simp [remapLongitude, pymod, hfloor]

/-- C7: longitude continuity is idempotent on collections whose
longitudinal bounds lie in `[-180, 360]`: remapped bounds land in
`[-180, 180)`, where the remap is the identity, so a second application
changes nothing. -/
theorem longitude_continuity_idempotent (tesseroids : List (Tesseroid ℚ))
    (h : ∀ t ∈ tesseroids, -180 ≤ t.w ∧ t.w ≤ 360 ∧ -180 ≤ t.e ∧ t.e ≤ 360) :
    _longitude_continuity (_longitude_continuity tesseroids) =
      _longitude_continuity tesseroids := by
  unfold _longitude_continuity
  rw [List.map_map]
  apply List.map_congr_left
  intro t ht
  by_cases hwe : t.w > t.e
  · simp only [Function.comp_apply, if_pos hwe]
    obtain ⟨hw0, hw1⟩ := remapLongitude_range t.w
    obtain ⟨he0, he1⟩ := remapLongitude_range t.e
    by_cases hwe' : remapLongitude t.w > remapLongitude t.e
    · simp only [if_pos hwe']
      rw [remapLongitude_fixed _ hw0 hw1, remapLongitude_fixed _ he0 he1]
    · simp only [if_neg hwe']
  · simp only [Function.comp_apply, if_neg hwe]

/-- Witness for C7: a collection containing a tesseroid crossing the
discontinuity, with bounds inside `[-180, 360]`. -/
theorem longitude_continuity_idempotent_witness :
    _longitude_continuity (_longitude_continuity
        [(⟨350, 10, 0, 1, 0, 1⟩ : Tesseroid ℚ), ⟨0, 30, -1, 1, 0, 1⟩]) =
      _longitude_continuity
        [(⟨350, 10, 0, 1, 0, 1⟩ : Tesseroid ℚ), ⟨0, 30, -1, 1, 0, 1⟩] :=
  longitude_continuity_idempotent _ (by norm_num)

/-- C6: tesseroid validation rejects a tesseroid with `south = 91`, one with
`bottom = -1`, one with `bottom = 10, top = 5`, and one with
`west = 0, east = 400`; and it accepts `west = 350, east = 10`, returning it
with longitude continuity applied so that its east bound exceeds its west
bound. -/
theorem check_tesseroids_concrete_cases :
    (_check_tesseroids [⟨0, 1, 91, 91, 0, 1⟩] = .error .latitudeOutOfRange) ∧
    (_check_tesseroids [⟨0, 1, 0, 1, -1, 1⟩] = .error .negativeRadius) ∧
    (_check_tesseroids [⟨0, 1, 0, 1, 10, 5⟩] = .error .bottomGreaterThanTop) ∧
    (_check_tesseroids [⟨0, 400, 0, 1, 0, 1⟩] = .error .longitudeOutOfRange) ∧
    (_check_tesseroids [⟨350, 10, 0, 1, 0, 1⟩] = .ok [⟨-10, 10, 0, 1, 0, 1⟩] ∧
      ((-10 : ℚ) < 10)) := by
  refine ⟨?_, ?_, ?_, ?_, ?_, by norm_num⟩ <;>
    norm_num [_check_tesseroids, _longitude_continuity, remapLongitude, pymod]

theorem check_tesseroids_length (ts ts' : List (Tesseroid ℚ))
    (h : _check_tesseroids ts = .ok ts') : ts'.length = ts.length := by
  simp only [_check_tesseroids] at h
  split_ifs at h
  all_goals
    first
    | (subst h
       simp [List.length_map])
    | (rw [Except.ok.injEq] at h
       subst h
       simp [_longitude_continuity, List.length_map])
    | simp at h

/-- Counterexample for C5: with `disable_checks = true` the density-length
check is skipped, so a two-element density against one tesseroid raises no
error — contradicting the claim that the mismatch is detected for all
values of the `disable_checks` flag. -/
theorem tesseroid_gravity_density_mismatch_counterexample :
    ([(1 : ℚ), 2].length ≠ [(⟨0, 1, 0, 1, 0, 1⟩ : Tesseroid ℚ)].length) ∧
    tesseroid_gravity [((0 : ℚ), 0, 10)] [⟨0, 1, 0, 1, 0, 1⟩] [1, 2]
        "potential" false true 1 (fun _ _ _ _ _ => 0) = .ok [0] := by
  constructor
  · norm_num
  · norm_num [tesseroid_gravity]

/-- C5 (amended): when checks are enabled (`disable_checks = false`), a
non-callable density whose length differs from the number of tesseroids
makes the call fail with some error for every value of the remaining
arguments, and — whenever the field name is recognized and the geometry
checks pass — with precisely the density-size-mismatch error, independently
of the computation function (so before any field computation). -/
theorem tesseroid_gravity_density_mismatch_checked
    (coordinates : List (ℚ × ℚ × ℚ)) (tesseroids : List (Tesseroid ℚ))
    (density : List ℚ) (field : String) (radial : Bool) (g : ℚ)
    (hlen : density.length ≠ tesseroids.length) :
    (∀ compute, ∃ er, tesseroid_gravity coordinates tesseroids density field
      radial false g compute = .error er) ∧
    (∀ checked, _check_tesseroids tesseroids = .ok checked →
      _check_points_outside_tesseroids coordinates checked = false →
      (field = "potential" ∨ field = "g_z") →
      ∀ compute, tesseroid_gravity coordinates tesseroids density field
        radial false g compute = .error .densitySizeMismatch) := by
  have hlen' : ∀ checked, _check_tesseroids tesseroids = .ok checked →
      density.length ≠ checked.length := by
    intro checked hc
    rw [check_tesseroids_length tesseroids checked hc]
    exact hlen
  constructor
  · intro compute
    by_cases hf : field = "potential" ∨ field = "g_z"
    · cases hc : _check_tesseroids tesseroids with
      | error e =>
        refine ⟨.invalidTesseroids e, ?_⟩
        simp [tesseroid_gravity, hf, hc]
      | ok checked =>
        by_cases hpts : _check_points_outside_tesseroids coordinates checked
            = true
        · refine ⟨.pointInsideTesseroid, ?_⟩
          simp [tesseroid_gravity, hf, hc, hpts]
        · refine ⟨.densitySizeMismatch, ?_⟩
          simp [tesseroid_gravity, hf, hc, hpts, hlen' checked hc]
    · refine ⟨.fieldNotRecognized, ?_⟩
      simp [tesseroid_gravity, hf]
  · intro checked hc hpts hf compute
    simp [tesseroid_gravity, hf, hc, hpts, hlen' checked hc]

/-- Witness for C5 (amended): a concrete checked call with a two-element
density against one valid tesseroid fails with the density-size-mismatch
error. -/
theorem tesseroid_gravity_density_mismatch_checked_witness :
    tesseroid_gravity [((0 : ℚ), 0, 10)] [⟨0, 1, 0, 1, 0, 1⟩] [1, 2]
        "potential" false false 1 (fun _ _ _ _ _ => 0) =
      .error .densitySizeMismatch := by
  obtain ⟨-, h2⟩ := tesseroid_gravity_density_mismatch_checked
    [((0 : ℚ), 0, 10)] [⟨0, 1, 0, 1, 0, 1⟩] [1, 2] "potential" false 1
    (by norm_num)
  exact h2 [⟨0, 1, 0, 1, 0, 1⟩] (by norm_num [_check_tesseroids])
    (by norm_num [_check_points_outside_tesseroids, pymod]) (Or.inl rfl) _

/-- C8: every successful `tesseroid_gravity` call returns the per-point
accumulated sums multiplied by the gravitational constant, additionally by
`1e5` exactly when the field is `g_z` and by nothing further for
`potential`, one value per computation point (the flat form of the
broadcast coordinate shape). -/
theorem tesseroid_gravity_unit_conversion
    (coordinates : List (ℚ × ℚ × ℚ)) (tesseroids : List (Tesseroid ℚ))
    (density : List ℚ) (field : String)
    (radial_adaptive_discretization disable_checks : Bool)
    (gravitational_const : ℚ)
    (compute : (ℚ × ℚ × ℚ) → List (Tesseroid ℚ) → List ℚ → ℚ → Bool → ℚ)
    (result : List ℚ)
    (h : tesseroid_gravity coordinates tesseroids density field
      radial_adaptive_discretization disable_checks gravitational_const
      compute = .ok result) :
    ∃ checked : List (Tesseroid ℚ),
      ((disable_checks = true ∧ checked = tesseroids) ∨
        (disable_checks = false ∧ _check_tesseroids tesseroids = .ok checked)) ∧
      result = coordinates.map (fun p =>
        compute p checked density (DISTANCE_SIZE_RATII field)
            radial_adaptive_discretization * gravitational_const *
          (if field = "g_z" then 100000 else 1)) ∧
      result.length = coordinates.length := by
  by_cases hf : field = "potential" ∨ field = "g_z"
  · cases hd : disable_checks with
    | true =>
      refine ⟨tesseroids, Or.inl ⟨rfl, rfl⟩, ?_, ?_⟩ <;>
        rcases hf with hp | hgz <;>
        [simp [tesseroid_gravity, hp, hd] at h;
         simp [tesseroid_gravity, hgz, hd] at h;
         simp [tesseroid_gravity, hp, hd] at h;
         simp [tesseroid_gravity, hgz, hd] at h] <;>
        subst h <;>
        [simp [Function.comp, hp, List.map_map];
         simp [Function.comp, hgz, List.map_map];
         simp [Function.comp, hp, List.map_map];
         simp [Function.comp, hgz, List.map_map]]
    | false =>
      cases hchk : _check_tesseroids tesseroids with
      | error e => simp [tesseroid_gravity, hf, hd, hchk] at h
      | ok checked =>
        by_cases hpts : _check_points_outside_tesseroids coordinates checked
            = true
        · simp [tesseroid_gravity, hf, hd, hchk, hpts] at h
        · by_cases hlen : density.length = checked.length
          · refine ⟨checked, Or.inr ⟨rfl, rfl⟩, ?_, ?_⟩ <;>
              rcases hf with hp | hgz <;>
              [simp [tesseroid_gravity, hp, hd, hchk, hpts, hlen] at h;
               simp [tesseroid_gravity, hgz, hd, hchk, hpts, hlen] at h;
               simp [tesseroid_gravity, hp, hd, hchk, hpts, hlen] at h;
               simp [tesseroid_gravity, hgz, hd, hchk, hpts, hlen] at h] <;>
              subst h <;>
              [simp [Function.comp, hp, List.map_map];
               simp [Function.comp, hgz, List.map_map];
               simp [Function.comp, hp, List.map_map];
               simp [Function.comp, hgz, List.map_map]]
          · simp [tesseroid_gravity, hf, hd, hchk, hpts, hlen] at h
  · simp [tesseroid_gravity, hf] at h

/-- Witness for C8: a concrete successful `g_z` call with unit gravitational
constant and a computation returning 2 per point yields `2 * 1 * 1e5`. -/
theorem tesseroid_gravity_unit_conversion_witness :
    ∃ checked : List (Tesseroid ℚ),
      ((true = true ∧ checked = [(⟨0, 1, 0, 1, 0, 1⟩ : Tesseroid ℚ)]) ∨
        (true = false ∧
          _check_tesseroids [⟨0, 1, 0, 1, 0, 1⟩] = .ok checked)) ∧
      [(200000 : ℚ)] = [((0 : ℚ), 0, 10)].map
        (fun _ => (2 : ℚ) * 1 * (if ("g_z" : String) = "g_z" then 100000
          else 1)) ∧
      [(200000 : ℚ)].length = [((0 : ℚ), 0, 10)].length :=
  tesseroid_gravity_unit_conversion [((0 : ℚ), 0, 10)] [⟨0, 1, 0, 1, 0, 1⟩]
    [1] "g_z" false true 1 (fun _ _ _ _ _ => 2) [200000]
    (by norm_num [tesseroid_gravity])

theorem seg_nonneg {α : Type} [LinearOrderedField α] (lo hi : α) (n : ℕ)
    (hle : lo ≤ hi) : 0 ≤ (hi - lo) / (n : α) :=
  div_nonneg (by linarith) (Nat.cast_nonneg n)

theorem seg_lower {α : Type} [LinearOrderedField α] (lo hi : α) (n i : ℕ)
    (hle : lo ≤ hi) : lo ≤ lo + (hi - lo) / (n : α) * (i : α) := by
  have h := mul_nonneg (seg_nonneg lo hi n hle)
    (Nat.cast_nonneg i : (0 : α) ≤ (i : α))
  linarith

theorem seg_upper {α : Type} [LinearOrderedField α] (lo hi : α) (n i : ℕ)
    (hle : lo ≤ hi) (hlt : i < n) :
    lo + (hi - lo) / (n : α) * ((i : α) + 1) ≤ hi := by
  have hn0 : (n : α) ≠ 0 := Nat.cast_ne_zero.mpr (by omega)
  have hin : ((i : α) + 1) ≤ (n : α) := by exact_mod_cast hlt
  have h1 : (hi - lo) / (n : α) * ((i : α) + 1) ≤
      (hi - lo) / (n : α) * (n : α) :=
    mul_le_mul_of_nonneg_left hin (seg_nonneg lo hi n hle)
  rw [div_mul_cancel₀ _ hn0] at h1
  linarith

theorem seg_mono {α : Type} [LinearOrderedField α] (lo hi : α) (n : ℕ)
    (x y : α) (hle : lo ≤ hi) (hxy : x ≤ y) :
    lo + (hi - lo) / (n : α) * x ≤ lo + (hi - lo) / (n : α) * y := by
  have h := mul_le_mul_of_nonneg_left hxy (seg_nonneg lo hi n hle)
  linarith

theorem seg_cover {α : Type} [LinearOrderedField α] (lo hi x : α) (n : ℕ)
    (hn : n = 1 ∨ n = 2) (h0 : lo ≤ x) (h1 : x ≤ hi) :
    ∃ i : ℕ, i < n ∧ lo + (hi - lo) / (n : α) * (i : α) ≤ x ∧
      x ≤ lo + (hi - lo) / (n : α) * ((i : α) + 1) := by
  rcases hn with rfl | rfl
  · refine ⟨0, by norm_num, by simpa using h0, ?_⟩
    push_cast
    ring_nf
    linarith
  · by_cases hmid : x ≤ lo + (hi - lo) / 2
    · refine ⟨0, by norm_num, by simpa using h0, ?_⟩
      push_cast
      ring_nf
      ring_nf at hmid
      linarith
    · refine ⟨1, by norm_num, ?_, ?_⟩
      · push_cast
        ring_nf
        ring_nf at hmid
        linarith [not_le.mp hmid]
      · push_cast
        ring_nf
        linarith

theorem mem_split_tesseroid {α : Type} [LinearOrderedField α]
    (t : Tesseroid α) (a b c : ℕ) (u : Tesseroid α) :
    u ∈ _split_tesseroid t a b c ↔
      ∃ i : ℕ, i < a ∧ ∃ j : ℕ, j < b ∧ ∃ k : ℕ, k < c ∧
        u = { w := t.w + (t.e - t.w) / (a : α) * (i : α),
              e := t.w + (t.e - t.w) / (a : α) * ((i : α) + 1),
              s := t.s + (t.n - t.s) / (b : α) * (j : α),
              n := t.s + (t.n - t.s) / (b : α) * ((j : α) + 1),
              bottom := t.bottom + (t.top - t.bottom) / (c : α) * (k : α),
              top := t.bottom + (t.top - t.bottom) / (c : α) * ((k : α) + 1) }
    := by
  constructor
  · intro hu
    simp only [_split_tesseroid, List.mem_flatMap, List.mem_map,
      List.mem_range] at hu
    obtain ⟨i, hi, j, hj, k, hk, hkeq⟩ := hu
    exact ⟨i, hi, j, hj, k, hk, hkeq.symm⟩
  · rintro ⟨i, hi, j, hj, k, hk, rfl⟩
    simp only [_split_tesseroid, List.mem_flatMap, List.mem_map,
      List.mem_range]
    exact ⟨i, hi, j, hj, k, hk, rfl⟩

theorem split_child_valid {α : Type} [LinearOrderedField α]
    (t : Tesseroid α) (a b c : ℕ) (u : Tesseroid α) (hval : t.IsValidBox)
    (hu : u ∈ _split_tesseroid t a b c) : u.IsValidBox := by
  obtain ⟨hwe, hsn, hbt⟩ := hval
  rw [mem_split_tesseroid] at hu
  obtain ⟨i, hi, j, hj, k, hk, rfl⟩ := hu
  exact ⟨seg_mono t.w t.e a i (i + 1) hwe (by linarith),
    seg_mono t.s t.n b j (j + 1) hsn (by linarith),
    seg_mono t.bottom t.top c k (k + 1) hbt (by linarith)⟩

theorem split_child_openBox_subset {α : Type} [LinearOrderedField α]
    (t : Tesseroid α) (a b c : ℕ) (u : Tesseroid α) (hval : t.IsValidBox)
    (hu : u ∈ _split_tesseroid t a b c) : u.openBox ⊆ t.openBox := by
  obtain ⟨hwe, hsn, hbt⟩ := hval
  rw [mem_split_tesseroid] at hu
  obtain ⟨i, hi, j, hj, k, hk, rfl⟩ := hu
  intro p hp
  obtain ⟨p1, p2, p3, p4, p5, p6⟩ := hp
  refine ⟨?_, ?_, ?_, ?_, ?_, ?_⟩ <;> dsimp only at * <;>
    first
    | (have h9 := seg_lower t.w t.e a i hwe; linarith)
    | (have h9 := seg_upper t.w t.e a i hwe hi; linarith)
    | (have h9 := seg_lower t.s t.n b j hsn; linarith)
    | (have h9 := seg_upper t.s t.n b j hsn hj; linarith)
    | (have h9 := seg_lower t.bottom t.top c k hbt; linarith)
    | (have h9 := seg_upper t.bottom t.top c k hbt hk; linarith)

theorem split_child_box_subset {α : Type} [LinearOrderedField α]
    (t : Tesseroid α) (a b c : ℕ) (u : Tesseroid α) (hval : t.IsValidBox)
    (hu : u ∈ _split_tesseroid t a b c) : u.box ⊆ t.box := by
  obtain ⟨hwe, hsn, hbt⟩ := hval
  rw [mem_split_tesseroid] at hu
  obtain ⟨i, hi, j, hj, k, hk, rfl⟩ := hu
  intro p hp
  obtain ⟨p1, p2, p3, p4, p5, p6⟩ := hp
  refine ⟨?_, ?_, ?_, ?_, ?_, ?_⟩ <;> dsimp only at * <;>
    first
    | (have h9 := seg_lower t.w t.e a i hwe; linarith)
    | (have h9 := seg_upper t.w t.e a i hwe hi; linarith)
    | (have h9 := seg_lower t.s t.n b j hsn; linarith)
    | (have h9 := seg_upper t.s t.n b j hsn hj; linarith)
    | (have h9 := seg_lower t.bottom t.top c k hbt; linarith)
    | (have h9 := seg_upper t.bottom t.top c k hbt hk; linarith)

theorem openBox_disjoint_of_lon {α : Type} [LinearOrderedField α]
    {t1 t2 : Tesseroid α} (h : t1.e ≤ t2.w ∨ t2.e ≤ t1.w) :
    t1.openBox ∩ t2.openBox = ∅ := by
  ext p
  simp only [Set.mem_inter_iff, Set.mem_empty_iff_false, iff_false,
    Tesseroid.openBox, Set.mem_setOf_eq]
  rintro ⟨⟨a1, a2, -⟩, b1, b2, -⟩
  rcases h with h | h <;> linarith

theorem openBox_disjoint_of_lat {α : Type} [LinearOrderedField α]
    {t1 t2 : Tesseroid α} (h : t1.n ≤ t2.s ∨ t2.n ≤ t1.s) :
    t1.openBox ∩ t2.openBox = ∅ := by
  ext p
  simp only [Set.mem_inter_iff, Set.mem_empty_iff_false, iff_false,
    Tesseroid.openBox, Set.mem_setOf_eq]
  rintro ⟨⟨-, -, a1, a2, -⟩, -, -, b1, b2, -⟩
  rcases h with h | h <;> linarith

theorem openBox_disjoint_of_rad {α : Type} [LinearOrderedField α]
    {t1 t2 : Tesseroid α} (h : t1.top ≤ t2.bottom ∨ t2.top ≤ t1.bottom) :
    t1.openBox ∩ t2.openBox = ∅ := by
  ext p
  simp only [Set.mem_inter_iff, Set.mem_empty_iff_false, iff_false,
    Tesseroid.openBox, Set.mem_setOf_eq]
  rintro ⟨⟨-, -, -, -, a1, a2⟩, -, -, -, -, b1, b2⟩
  rcases h with h | h <;> linarith

theorem pairwise_flatMap_of {α β : Type} {R : β → β → Prop} (l : List α)
    (f : α → List β)
    (hin : ∀ x ∈ l, (f x).Pairwise R)
    (hcross : l.Pairwise fun x y => ∀ u ∈ f x, ∀ v ∈ f y, R u v) :
    (l.flatMap f).Pairwise R := by
  rw [List.flatMap_def, List.pairwise_flatten]
  refine ⟨?_, ?_⟩
  · intro l' hl'
    obtain ⟨x, hx, rfl⟩ := List.mem_map.mp hl'
    exact hin x hx
  · rw [List.pairwise_map]
    exact hcross

theorem split_children_interiors_disjoint {α : Type} [LinearOrderedField α]
    (t : Tesseroid α) (a b c : ℕ) (hval : t.IsValidBox) :
    InteriorsDisjoint (_split_tesseroid t a b c) := by
  obtain ⟨hwe, hsn, hbt⟩ := hval
  rw [InteriorsDisjoint]
  simp only [_split_tesseroid]
  apply pairwise_flatMap_of
  · intro i hi
    apply pairwise_flatMap_of
    · intro j hj
      rw [List.pairwise_map]
      refine (List.pairwise_lt_range c).imp ?_
      intro k1 k2 hk
      apply openBox_disjoint_of_rad
      left
      dsimp only
      have hcast : ((k1 : α) + 1) ≤ (k2 : α) := by exact_mod_cast hk
      exact seg_mono t.bottom t.top c _ _ hbt hcast
    · refine (List.pairwise_lt_range b).imp ?_
      intro j1 j2 hj u hu v hv
      obtain ⟨k1, hk1, rfl⟩ := List.mem_map.mp hu
      obtain ⟨k2, hk2, rfl⟩ := List.mem_map.mp hv
      apply openBox_disjoint_of_lat
      left
      dsimp only
      have hcast : ((j1 : α) + 1) ≤ (j2 : α) := by exact_mod_cast hj
      exact seg_mono t.s t.n b _ _ hsn hcast
  · refine (List.pairwise_lt_range a).imp ?_
    intro i1 i2 hi u hu v hv
    obtain ⟨j1, hj1, u2⟩ := List.mem_flatMap.mp hu
    obtain ⟨k1, hk1, rfl⟩ := List.mem_map.mp u2
    obtain ⟨j2, hj2, v2⟩ := List.mem_flatMap.mp hv
    obtain ⟨k2, hk2, rfl⟩ := List.mem_map.mp v2
    apply openBox_disjoint_of_lon
    left
    dsimp only
    have hcast : ((i1 : α) + 1) ≤ (i2 : α) := by exact_mod_cast hi
    exact seg_mono t.w t.e a _ _ hwe hcast

theorem split_children_cover {α : Type} [LinearOrderedField α]
    (t : Tesseroid α) (a b c : ℕ) (hval : t.IsValidBox)
    (ha : a = 1 ∨ a = 2) (hb : b = 1 ∨ b = 2) (hc : c = 1 ∨ c = 2) :
    coveredRegion (_split_tesseroid t a b c) = t.box := by
  ext p
  simp only [coveredRegion, Set.mem_setOf_eq]
  constructor
  · rintro ⟨u, hu, hp⟩
    exact split_child_box_subset t a b c u hval hu hp
  · intro hp
    obtain ⟨hwe, hsn, hbt⟩ := hval
    simp only [Tesseroid.box, Set.mem_setOf_eq] at hp
    obtain ⟨p1, p2, p3, p4, p5, p6⟩ := hp
    obtain ⟨i, hi, hil, hir⟩ := seg_cover t.w t.e p.1 a ha p1 p2
    obtain ⟨j, hj, hjl, hjr⟩ := seg_cover t.s t.n p.2.1 b hb p3 p4
    obtain ⟨k, hk, hkl, hkr⟩ := seg_cover t.bottom t.top p.2.2 c hc p5 p6
    refine ⟨_, (mem_split_tesseroid t a b c _).mpr
      ⟨i, hi, j, hj, k, hk, rfl⟩, ?_⟩
    exact ⟨hil, hir, hjl, hjr, hkl, hkr⟩

theorem split_tiles_exactly {α : Type} [LinearOrderedField α]
    (t : Tesseroid α) (a b c : ℕ) (hval : t.IsValidBox)
    (ha : a = 1 ∨ a = 2) (hb : b = 1 ∨ b = 2) (hc : c = 1 ∨ c = 2) :
    TilesExactly t (_split_tesseroid t a b c) :=
  ⟨fun u hu => split_child_valid t a b c u hval hu,
    split_children_cover t a b c hval ha hb hc,
    split_children_interiors_disjoint t a b c hval⟩

theorem coveredRegion_cons {α : Type} [LinearOrderedField α]
    (t : Tesseroid α) (l : List (Tesseroid α)) :
    coveredRegion (t :: l) = t.box ∪ coveredRegion l := by
  ext p
  simp only [coveredRegion, Set.mem_setOf_eq, List.mem_cons, Set.mem_union]
  constructor
  · rintro ⟨u, rfl | hu, hp⟩
    · exact Or.inl hp
    · exact Or.inr ⟨u, hu, hp⟩
  · rintro (hp | ⟨u, hu, hp⟩)
    · exact ⟨t, Or.inl rfl, hp⟩
    · exact ⟨u, Or.inr hu, hp⟩

theorem coveredRegion_append {α : Type} [LinearOrderedField α]
    (l1 l2 : List (Tesseroid α)) :
    coveredRegion (l1 ++ l2) = coveredRegion l1 ∪ coveredRegion l2 := by
  ext p
  simp only [coveredRegion, Set.mem_setOf_eq, List.mem_append, Set.mem_union]
  constructor
  · rintro ⟨u, hu | hu, hp⟩
    · exact Or.inl ⟨u, hu, hp⟩
    · exact Or.inr ⟨u, hu, hp⟩
  · rintro (⟨u, hu, hp⟩ | ⟨u, hu, hp⟩)
    · exact ⟨u, Or.inl hu, hp⟩
    · exact ⟨u, Or.inr hu, hp⟩

theorem tilesExactly_perm {α : Type} [LinearOrderedField α]
    {t : Tesseroid α} {l l' : List (Tesseroid α)} (hp : l.Perm l')
    (ht : TilesExactly t l) : TilesExactly t l' := by
  obtain ⟨hval, hcov, hdis⟩ := ht
  refine ⟨fun u hu => hval u (hp.mem_iff.mpr hu), ?_, ?_⟩
  · rw [← hcov]
    ext p
    simp only [coveredRegion, Set.mem_setOf_eq]
    constructor <;> rintro ⟨u, hu, hq⟩
    · exact ⟨u, hp.mem_iff.mpr hu, hq⟩
    · exact ⟨u, hp.mem_iff.mp hu, hq⟩
  · exact (hp.pairwise_iff fun h => by rw [Set.inter_comm]; exact h).mp hdis

theorem tiles_step_leaf {α : Type} [LinearOrderedField α]
    (t0 tesseroid : Tesseroid α) (rest out : List (Tesseroid α))
    (hinv : TilesExactly t0 (tesseroid :: (rest ++ out))) :
    TilesExactly t0 (rest ++ (out ++ [tesseroid])) := by
  refine tilesExactly_perm ?_ hinv
  have h1 := (List.perm_append_singleton tesseroid (rest ++ out)).symm
  have h2 : rest ++ (out ++ [tesseroid]) = (rest ++ out) ++ [tesseroid] :=
    (List.append_assoc _ _ _).symm
  rw [← h2] at h1
  exact h1

theorem tiles_step_split {α : Type} [LinearOrderedField α]
    (t0 tesseroid : Tesseroid α) (rest out : List (Tesseroid α))
    (nl nt nr : ℕ) (ha : nl = 1 ∨ nl = 2) (hb : nt = 1 ∨ nt = 2)
    (hc : nr = 1 ∨ nr = 2)
    (hinv : TilesExactly t0 (tesseroid :: (rest ++ out))) :
    TilesExactly t0
      (((_split_tesseroid tesseroid nl nt nr).reverse ++ rest) ++ out) := by
  obtain ⟨hval, hcov, hdis⟩ := hinv
  have hv_t : tesseroid.IsValidBox := hval tesseroid (List.mem_cons_self _ _)
  have hcons := List.pairwise_cons.mp hdis
  have htile := split_tiles_exactly tesseroid nl nt nr hv_t ha hb hc
  have hmain : TilesExactly t0
      (_split_tesseroid tesseroid nl nt nr ++ (rest ++ out)) := by
    refine ⟨?_, ?_, ?_⟩
    · intro u hu
      rcases List.mem_append.mp hu with hu | hu
      · exact htile.1 u hu
      · exact hval u (List.mem_cons_of_mem _ hu)
    · rw [coveredRegion_append, htile.2.1, ← coveredRegion_cons]
      exact hcov
    · rw [InteriorsDisjoint, List.pairwise_append]
      refine ⟨htile.2.2, hcons.2, ?_⟩
      intro x hx y hy
      have hsub := split_child_openBox_subset tesseroid nl nt nr x hv_t hx
      have hdisj := hcons.1 y hy
      refine Set.subset_empty_iff.mp ?_
      calc x.openBox ∩ y.openBox
          ⊆ tesseroid.openBox ∩ y.openBox :=
            Set.inter_subset_inter hsub (subset_refl _)
        _ = ∅ := hdisj
  refine tilesExactly_perm ?_ hmain
  have hp : ((_split_tesseroid tesseroid nl nt nr ++ (rest ++ out)) :
      List (Tesseroid α)).Perm
      ((_split_tesseroid tesseroid nl nt nr).reverse ++ (rest ++ out)) :=
    List.Perm.append_right _ (List.reverse_perm _).symm
  simpa [List.append_assoc] using hp

theorem adaptiveStep_preserves_tiles {α : Type} [LinearOrderedField α]
    (dims : Tesseroid α → α × α × α) (dist : α × α × α → Tesseroid α → α)
    (coordinates : α × α × α) (distance_size_ratio : α)
    (radial_discretization : Bool) (stack_size max_discretizations : ℕ)
    (t0 tesseroid : Tesseroid α) (rest out stack' out' : List (Tesseroid α))
    (hstep : adaptiveStep dims dist coordinates distance_size_ratio
        radial_discretization stack_size max_discretizations
        tesseroid rest out = .ok (stack', out'))
    (hinv : TilesExactly t0 (tesseroid :: (rest ++ out))) :
    TilesExactly t0 (stack' ++ out') := by
  simp only [adaptiveStep] at hstep
  split_ifs at hstep <;>
    first
    | (rw [Except.ok.injEq, Prod.mk.injEq] at hstep
       obtain ⟨hs, ho⟩ := hstep
       subst hs
       subst ho
       first
       | exact tiles_step_split t0 tesseroid rest out _ _ _ (by omega)
           (by omega) (by omega) hinv
       | exact tiles_step_leaf t0 tesseroid rest out hinv)
    | simp at hstep

theorem adaptiveLoop_tiles {α : Type} [LinearOrderedField α]
    (dims : Tesseroid α → α × α × α) (dist : α × α × α → Tesseroid α → α)
    (coordinates : α × α × α) (distance_size_ratio : α)
    (radial_discretization : Bool) (stack_size max_discretizations : ℕ)
    (t0 : Tesseroid α) :
    ∀ (fuel : ℕ) (stack out leaves : List (Tesseroid α)),
      TilesExactly t0 (stack ++ out) →
      adaptiveLoop dims dist coordinates distance_size_ratio
          radial_discretization stack_size max_discretizations fuel stack out
        = .ok leaves →
      TilesExactly t0 leaves := by
  intro fuel
  induction fuel with
  | zero =>
    intro stack out leaves hinv h
    cases stack with
    | nil =>
      rw [show (adaptiveLoop dims dist coordinates distance_size_ratio
        radial_discretization stack_size max_discretizations 0 [] out :
          AdaptResult α) = .ok out from rfl] at h
      rw [AdaptResult.ok.injEq] at h
      rw [← h]
      simpa using hinv
    | cons t rest => simp [adaptiveLoop] at h
  | succ fuel ih =>
    intro stack out leaves hinv h
    cases stack with
    | nil =>
      rw [show (adaptiveLoop dims dist coordinates distance_size_ratio
        radial_discretization stack_size max_discretizations (fuel + 1) []
          out : AdaptResult α) = .ok out from rfl] at h
      rw [AdaptResult.ok.injEq] at h
      rw [← h]
      simpa using hinv
    | cons t rest =>
      rw [adaptiveLoop] at h
      cases hstep : adaptiveStep dims dist coordinates distance_size_ratio
          radial_discretization stack_size max_discretizations t rest out with
      | error e => rw [hstep] at h; simp at h
      | ok p =>
        rw [hstep] at h
        refine ih p.1 p.2 leaves ?_ h
        exact adaptiveStep_preserves_tiles dims dist coordinates
          distance_size_ratio radial_discretization stack_size
          max_discretizations t0 t rest out p.1 p.2 (by rw [hstep])
          (by simpa using hinv)

theorem tiles_single {α : Type} [LinearOrderedField α] (t : Tesseroid α)
    (hv : t.IsValidBox) : TilesExactly t [t] := by
  refine ⟨by simpa using hv, ?_, by simp [InteriorsDisjoint]⟩
  ext p
  simp [coveredRegion]

/-- C10: each split replaces a parent tesseroid with children whose per-axis
intervals are contiguous equal subdivisions tiling the parent exactly
(union of closed boxes equal to the parent box, interiors pairwise
disjoint), and consequently, when the adaptive-discretization loop finishes
without error on a valid tesseroid, the returned small tesseroids form an
exact partition of the (longitude, latitude, radius) box of the input
tesseroid. -/
theorem adaptive_discretization_partitions {α : Type} [LinearOrderedField α]
    (dims : Tesseroid α → α × α × α) (dist : α × α × α → Tesseroid α → α)
    (coordinates : α × α × α) (distance_size_ratio : α)
    (radial_discretization : Bool) (tesseroid : Tesseroid α) (fuel : ℕ)
    (leaves : List (Tesseroid α)) :
    (∀ (u : Tesseroid α) (n_lon n_lat n_rad : ℕ), u.IsValidBox →
      (n_lon = 1 ∨ n_lon = 2) → (n_lat = 1 ∨ n_lat = 2) →
      (n_rad = 1 ∨ n_rad = 2) →
      TilesExactly u (_split_tesseroid u n_lon n_lat n_rad)) ∧
    (tesseroid.IsValidBox →
      _adaptive_discretization dims dist coordinates tesseroid
        distance_size_ratio radial_discretization fuel = .ok leaves →
      TilesExactly tesseroid leaves) := by
  constructor
  · intro u a b c hv ha hb hc
    exact split_tiles_exactly u a b c hv ha hb hc
  · intro hv h
    refine adaptiveLoop_tiles dims dist coordinates distance_size_ratio
      radial_discretization STACK_SIZE MAX_DISCRETIZATIONS tesseroid fuel
      [tesseroid] [] leaves ?_ h
    simpa using tiles_single tesseroid hv

/-- Witness for C10: a concrete run on the unit tesseroid whose distance is
so large that it is emitted as a single leaf, which tiles it exactly. -/
theorem adaptive_discretization_partitions_witness :
    TilesExactly (⟨0, 1, 0, 1, 0, 1⟩ : Tesseroid ℚ) [⟨0, 1, 0, 1, 0, 1⟩] := by
  refine (adaptive_discretization_partitions (fun _ => ((1 : ℚ), 1, 1))
    (fun _ _ => (10 : ℚ)) (0, 0, 0) 1 false ⟨0, 1, 0, 1, 0, 1⟩ (0 + 1)
    [⟨0, 1, 0, 1, 0, 1⟩]).2 (by norm_num [Tesseroid.IsValidBox]) ?_
  rw [_adaptive_discretization, adaptiveLoop,
    show adaptiveStep (fun _ => ((1 : ℚ), 1, 1)) (fun _ _ => (10 : ℚ))
        (0, 0, 0) 1 false STACK_SIZE MAX_DISCRETIZATIONS ⟨0, 1, 0, 1, 0, 1⟩
        [] [] = .ok ([], [⟨0, 1, 0, 1, 0, 1⟩]) from by
      norm_num [adaptiveStep, MAX_DISCRETIZATIONS]]
  rfl
